import Mathlib

/-!
Shallow embedding of the cratetorrent core: storage info
(`src/storage_info.rs`), block bookkeeping (`src/lib.rs`), the peer session
state machine (`src/peer.rs`) and the disk piece assembler
(`src/disk/io.rs`).  Pure functions of the source become Lean functions;
the async event loops become explicit state passing over command lists.
Parts of the crate that the snapshot does not include (the piece picker,
`PieceDownload`, the wire codec, the `IoVecs` helper) are modelled from the
design document and marked as such in their doc comments.
-/

namespace Cratetorrent

/-- The canonical block length, 16 KiB (`BLOCK_LEN` in `lib.rs`). -/
def BLOCK_LEN : Nat := 0x4000

/-- A block's address: piece index, byte offset in piece, length
(`BlockInfo` in `lib.rs`). -/
structure BlockInfo where
  piece_index : Nat
  offset : Nat
  len : Nat
deriving DecidableEq

/-- Length of the block at `index` in a piece of `piece_len` bytes
(`block_len` in `lib.rs`).  The source asserts
`piece_len > index * BLOCK_LEN` and panics otherwise; the panic is
modelled as `none`. -/
def block_len (piece_len index : Nat) : Option Nat :=
  let block_offset := index * BLOCK_LEN
  if piece_len > block_offset then
    some (min (piece_len - block_offset) BLOCK_LEN)
  else
    none

/-- Number of blocks in a piece of `piece_len` bytes (`block_count` in
`lib.rs`). -/
def block_count (piece_len : Nat) : Nat :=
  (piece_len + (BLOCK_LEN - 1)) / BLOCK_LEN

/-- Error kinds of `crate::error::Error` (the file itself is not in the
snapshot; the variants are the ones used by `peer.rs`, `disk/io.rs` and
`storage_info.rs`). -/
inductive Error
  | InvalidPeerInfoHash
  | PeerNotSeed
  | BitfieldNotAfterHandshake
  | InvalidTorrentId
  | InvalidPieceIndex
deriving DecidableEq

/-- Information about a torrent's file (`FileInfo` in
`storage_info.rs`). -/
structure FileInfo where
  path : String
  len : Nat
  torrent_offset : Nat
deriving DecidableEq

/-- One past the file's last byte offset in the torrent
(`FileInfo::torrent_end_offset`). -/
def FileInfo.torrent_end_offset (f : FileInfo) : Nat :=
  f.torrent_offset + f.len

/-- Location of a byte range within a file (`FileSlice` in
`storage_info.rs`). -/
structure FileSlice where
  offset : Nat
  len : Nat
deriving DecidableEq

/-- The slice of this file overlapping the range starting at
`torrent_offset` of length `len` (`FileInfo::get_slice`).  The source
panics when the offset falls before the file or at/past its end; the
panic is modelled as `none`. -/
def FileInfo.get_slice (f : FileInfo) (torrent_offset len : Nat) :
    Option FileSlice :=
  if torrent_offset < f.torrent_offset then
    none
  else if f.torrent_end_offset ≤ torrent_offset then
    none
  else
    some { offset := torrent_offset - f.torrent_offset
           len := min len (f.torrent_end_offset - torrent_offset) }

/-- File system structure of the download (`FsStructure` in
`storage_info.rs`). -/
inductive FsStructure
  | file (f : FileInfo)
  | archive (files : List FileInfo)
deriving DecidableEq

/-- Extension phase of the `files_intersecting_bytes` loop: starting at
file index `i`, extend the returned end index `acc` to cover every file
whose `torrent_offset` lies inside `[bstart, bend)`, and stop at the
first that does not. -/
def extendFileRange (bstart bend : Nat) :
    List FileInfo → Nat → Nat → Nat
  | [], _, acc => acc
  | f :: fs, i, acc =>
    if bstart ≤ f.torrent_offset ∧ f.torrent_offset < bend then
      extendFileRange bstart bend fs (i + 1) (i + 1)
    else
      acc

/-- The left-inclusive range of file indices overlapping the byte range
`[bstart, bend)` (`FsStructure::files_intersecting_bytes`). -/
def FsStructure.files_intersecting_bytes (s : FsStructure)
    (bstart bend : Nat) : Nat × Nat :=
  match s with
  | .file _ => (0, 1)
  | .archive files =>
    match files.findIdx? (fun f =>
        decide (f.torrent_offset ≤ bstart) &&
        decide (bstart < f.torrent_end_offset)) with
    | none => (0, 0)
    | some first =>
      (first,
        extendFileRange bstart bend (files.drop (first + 1)) (first + 1)
          (first + 1))

/-- Storage related metadata of a torrent (`StorageInfo` in
`storage_info.rs`; `disk/io.rs` refers to the directory field as
`download_path`). -/
structure StorageInfo where
  piece_count : Nat
  piece_len : Nat
  last_piece_len : Nat
  download_len : Nat
  download_dir : String
  structure_ : FsStructure
deriving DecidableEq

/-- Length of the piece at `index` (`StorageInfo::piece_len`). -/
def StorageInfo.pieceLenAt (info : StorageInfo) (index : Nat) :
    Except Error Nat :=
  if index = info.piece_count - 1 then
    .ok info.last_piece_len
  else if index < info.piece_count - 1 then
    .ok info.piece_len
  else
    .error .InvalidPieceIndex

/-- Indices of the files that intersect the piece at `index`
(`StorageInfo::files_intersecting_piece`). -/
def StorageInfo.files_intersecting_piece (info : StorageInfo)
    (index : Nat) : Except Error (Nat × Nat) := do
  let piece_offset := index * info.piece_len
  let piece_end := piece_offset + (← info.pieceLenAt index)
  .ok (info.structure_.files_intersecting_bytes piece_offset piece_end)

/-- Lookup in an association list keyed by `Nat` (model of `HashMap::get`
and `BTreeMap::get`). -/
def lookupKey {α : Type} (k : Nat) : List (Nat × α) → Option α
  | [] => none
  | (k', v) :: rest => if k = k' then some v else lookupKey k rest

/-- Key membership in an association list (model of `contains_key`). -/
def containsKey {α : Type} (k : Nat) (l : List (Nat × α)) : Bool :=
  (lookupKey k l).isSome

/-- Removal from an association list (model of `HashMap::remove`). -/
def removeKey {α : Type} (k : Nat) (l : List (Nat × α)) :
    List (Nat × α) :=
  l.filter (fun kv => decide (kv.1 ≠ k))

/-- Replace the value stored at an existing key (model of mutating a map
entry in place through `get_mut`). -/
def setKey {α : Type} (k : Nat) (v : α) : List (Nat × α) → List (Nat × α)
  | [] => []
  | (k', v') :: rest =>
    if k = k' then (k', v) :: rest else (k', v') :: setKey k v rest

/-- Ordered insertion into a key-sorted association list: the model of
`BTreeMap::insert`, which keeps keys in ascending order. -/
def btInsert {α : Type} (k : Nat) (v : α) :
    List (Nat × α) → List (Nat × α)
  | [] => [(k, v)]
  | (k', v') :: rest =>
    if k < k' then (k, v) :: (k', v') :: rest
    else if k = k' then (k, v) :: rest
    else (k', v') :: btInsert k v rest

/-- Total number of bytes held by a list of write buffers. -/
def bytesLen (bufs : List (List Nat)) : Nat :=
  (bufs.map List.length).sum

/-- Modelled from the spec: the `IoVecs` helper of `disk/iovecs.rs` (not
under `src/`) presents a prefix of a buffer list whose total length is at
most a bound, splitting a buffer in the middle when the bound falls
inside it; `into_tail` yields the untouched remainder for the next
file. -/
structure IoVecs where
  head : List (List Nat)
  tail : List (List Nat)
deriving DecidableEq

/-- Split a buffer list at a byte bound: the first component holds at
most `n` bytes, the second the rest (a buffer may be cut in two). -/
def splitBufsAt (n : Nat) : List (List Nat) →
    List (List Nat) × List (List Nat)
  | [] => ([], [])
  | b :: bs =>
    if b.length ≤ n then
      let (h, t) := splitBufsAt (n - b.length) bs
      (b :: h, t)
    else if n = 0 then
      ([], b :: bs)
    else
      ([b.take n], b.drop n :: bs)

/-- Modelled from the spec: `IoVecs::bounded`. -/
def IoVecs.bounded (bufs : List (List Nat)) (n : Nat) : IoVecs :=
  let (h, t) := splitBufsAt n bufs
  { head := h, tail := t }

/-- Modelled from the spec: `IoVecs::unbounded`. -/
def IoVecs.unbounded (bufs : List (List Nat)) : IoVecs :=
  { head := bufs, tail := [] }

/-- Drop `n` bytes from the front of a buffer list, skipping emptied
leading buffers and trimming the next one (the advance step of the
vectored-write helper). -/
def dropBytesBufs (n : Nat) : List (List Nat) → List (List Nat)
  | [] => []
  | b :: bs =>
    if b.length ≤ n then dropBytesBufs (n - b.length) bs
    else b.drop n :: bs

/-- Modelled from the spec: `IoVecs::advance`. -/
def IoVecs.advance (n : Nat) (v : IoVecs) : IoVecs :=
  { v with head := dropBytesBufs n v.head }

/-- Modelled from the spec: `IoVecs::into_tail`. -/
def IoVecs.into_tail (v : IoVecs) : List (List Nat) :=
  v.tail

/-- Overwrite `bs` into `c` starting at byte `off`, zero-padding if `off`
is past the end (the effect of a positional write on a file). -/
def writeBytesAt (c : List Nat) (off : Nat) (bs : List Nat) : List Nat :=
  c.take off ++ List.replicate (off - c.length) 0 ++ bs ++
    c.drop (off + bs.length)

/-- A torrent file: its metadata and its current on-disk contents
(`TorrentFile` in `disk/io.rs`, with the open handle replaced by the
bytes it refers to). -/
structure TorrentFile where
  info : FileInfo
  contents : List Nat
deriving DecidableEq

/-- The write loop of `TorrentFile::write_vectored_at`.  The source loops
calling `pwritev` until the buffers are empty; the kernel call is
modelled as always writing every byte handed to it, so the loop of the
source runs exactly once (once more than once is indistinguishable at
this level).  Returns the write count, the updated file and the advanced
`IoVecs`. -/
def TorrentFile.write_vectored_at (f : TorrentFile) (iovecs : IoVecs)
    (offset : Nat) : Nat × TorrentFile × IoVecs :=
  if iovecs.head.isEmpty then
    (0, f, iovecs)
  else
    let cnt := bytesLen iovecs.head
    let f' :=
      { f with contents := writeBytesAt f.contents offset iovecs.head.flatten }
    (cnt, f', iovecs.advance cnt)

/-- Write errors reported to the owning torrent (`WriteError` of
`disk/error.rs`).  `panicked` is the model of a Rust panic raised inside
the blocking write task (in particular by `get_slice` on an
out-of-range offset); the source does not catch it. -/
inductive WriteError
  | Io
  | InvalidPieceIndex
  | panicked
deriving DecidableEq

/-- An in-progress piece of the disk write buffer (`Piece` in
`disk/io.rs`).  `blocks` is the `BTreeMap<u32, Vec<u8>>` of the source:
a key-sorted association list from block offset to block bytes.
`files` is the left-inclusive range of file indices the piece spans. -/
structure Piece where
  expected_hash : List Nat
  len : Nat
  blocks : List (Nat × List Nat)
  files : Nat × Nat
deriving DecidableEq

/-- Place a block into the piece's write buffer unless its offset is
already present; a duplicate is dropped (`Piece::enqueue_block`). -/
def Piece.enqueue_block (p : Piece) (offset : Nat) (data : List Nat) :
    Piece :=
  if containsKey offset p.blocks then p
  else { p with blocks := btInsert offset data p.blocks }

/-- Whether the piece has all its blocks (`Piece::is_complete`). -/
def Piece.is_complete (p : Piece) : Bool :=
  p.blocks.length = block_count p.len

/-- Whether the piece's hash matches the expected hash
(`Piece::matches_hash`).  The source feeds the blocks into a SHA-1
hasher in ascending offset order, which hashes their concatenation; the
SHA-1 function itself is external to the crate and is therefore a
parameter. -/
def Piece.matches_hash (sha1 : List Nat → List Nat) (p : Piece) : Bool :=
  sha1 (p.blocks.map (fun b => b.2)).flatten = p.expected_hash

/-- The per-file loop of the multi-file branch of `Piece::write`: for
each file derive the slice via `get_slice(write_torrent_offset,
piece_len)`, write the bounded prefix of the buffers, keep the tail for
the next file and advance the torrent offset by the write count.
Returns the total write count, the updated files, and the leftover
buffers (which the source debug-asserts to be empty). -/
def pieceWriteLoop (piece_len : Nat) :
    List TorrentFile → Nat → List (List Nat) → Nat →
    Except WriteError (Nat × List TorrentFile × List (List Nat))
  | [], _, bufs, total => .ok (total, [], bufs)
  | f :: fs, off, bufs, total =>
    match f.info.get_slice off piece_len with
    | none => .error .panicked
    | some slice =>
      let iovecs := IoVecs.bounded bufs slice.len
      let (cnt, f', iovecs') := f.write_vectored_at iovecs slice.offset
      let bufs' := iovecs'.into_tail
      match pieceWriteLoop piece_len fs (off + cnt) bufs' (total + cnt) with
      | .error e => .error e
      | .ok (t, fs', rem) => .ok (t, f' :: fs', rem)

/-- Core of `Piece::write` over the sublist of files the piece spans.
The single-file branch writes all buffers unbounded; otherwise the
per-file loop runs.  Returns total write count, updated files and the
leftover buffers. -/
def Piece.writeCore (p : Piece) (off : Nat) (fs : List TorrentFile) :
    Except WriteError (Nat × List TorrentFile × List (List Nat)) :=
  let bufs := p.blocks.map (fun b => b.2)
  match fs with
  | [f] =>
    match f.info.get_slice off p.len with
    | none => .error .panicked
    | some slice =>
      let iovecs := IoVecs.unbounded bufs
      let (cnt, f', iovecs') := f.write_vectored_at iovecs slice.offset
      .ok (cnt, [f'], iovecs'.into_tail)
  | fs => pieceWriteLoop p.len fs off bufs 0

/-- The files `files[p.files]` that the piece spans. -/
def sliceFiles (files : List TorrentFile) (r : Nat × Nat) :
    List TorrentFile :=
  (files.drop r.1).take (r.2 - r.1)

/-- `Piece::write` with the leftover buffers exposed: the spanned files
are carved out of the full list, written, and spliced back. -/
def Piece.writeAux (p : Piece) (off : Nat) (files : List TorrentFile) :
    Except WriteError (Nat × List TorrentFile × List (List Nat)) :=
  (p.writeCore off (sliceFiles files p.files)).map fun r =>
    (r.1, files.take p.files.1 ++ r.2.1 ++ files.drop p.files.2, r.2.2)

/-- `Piece::write`: writes the piece's blocks into the files it spans
and returns the total write count together with the updated files. -/
def Piece.write (p : Piece) (off : Nat) (files : List TorrentFile) :
    Except WriteError (Nat × List TorrentFile) :=
  (p.writeAux off files).map fun r => (r.1, r.2.1)

/-- Decidable equality for `Except`, needed to evaluate the embedding on
concrete inputs. -/
def exceptDecEq {ε α : Type} [DecidableEq ε] [DecidableEq α] :
    DecidableEq (Except ε α)
  | .error a, .error b =>
    if h : a = b then .isTrue (congrArg Except.error h)
    else .isFalse (fun hh => h (Except.error.inj hh))
  | .error _, .ok _ => .isFalse (fun hh => Except.noConfusion hh)
  | .ok _, .error _ => .isFalse (fun hh => Except.noConfusion hh)
  | .ok a, .ok b =>
    if h : a = b then .isTrue (congrArg Except.ok h)
    else .isFalse (fun hh => h (Except.ok.inj hh))

instance {ε α : Type} [DecidableEq ε] [DecidableEq α] :
    DecidableEq (Except ε α) :=
  exceptDecEq

/-- A batch of blocks written to disk, with the hash verdict of the
completed piece (`BatchWrite` in `disk/mod.rs`, modelled from its uses
in `disk/io.rs`). -/
structure BatchWrite where
  blocks : List BlockInfo
  is_piece_valid : Option Bool
deriving DecidableEq

/-- Alerts a torrent receives from the disk task on its per-torrent
channel (`TorrentAlert`). -/
inductive TorrentAlert
  | batchWrite (r : Except WriteError BatchWrite)
deriving DecidableEq

/-- Kind of an I/O error raised during torrent allocation. -/
inductive IoErrorKind
  | alreadyExists
  | other
deriving DecidableEq

/-- Torrent allocation errors (`NewTorrentError` of `disk/error.rs`,
modelled from its uses in `disk/io.rs`). -/
inductive NewTorrentError
  | AlreadyExists
  | Io (kind : IoErrorKind)
deriving DecidableEq

/-- Alerts the disk task sends to the engine (`Alert`).  A successful
allocation carries the torrent id (the source also carries the alert
channel receiver, which needs no model). -/
inductive DiskAlert
  | torrentAllocation (r : Except NewTorrentError Nat)
deriving DecidableEq

/-- Disk I/O statistics (`Stats` in `disk/io.rs`). -/
structure Stats where
  write_count : Nat
  write_failure_count : Nat
deriving DecidableEq

/-- Disk-side state of one torrent (`Torrent` in `disk/io.rs`).  The
per-torrent alert channel is modelled as the list of alerts sent on
it. -/
structure DTorrent where
  info : StorageInfo
  pieces : List (Nat × Piece)
  files : List TorrentFile
  piece_hashes : List Nat
  stats : Stats
  alerts : List TorrentAlert
deriving DecidableEq

/-- Creation of a torrent's file system structure (`Torrent::new`).  The
filesystem is modelled as the set of already-existing paths: if the
configured download path exists the allocation fails with an
`AlreadyExists` I/O error; otherwise every file is created empty
(directory creation and the open calls are modelled as succeeding). -/
def DTorrent.new (fs : List String) (info : StorageInfo)
    (piece_hashes : List Nat) : Except NewTorrentError DTorrent :=
  if info.download_dir ∈ fs then
    .error (.Io .alreadyExists)
  else
    let files :=
      match info.structure_ with
      | .file f => [{ info := f, contents := [] }]
      | .archive fsl =>
        fsl.map fun f =>
          { info := { f with path := info.download_dir ++ "/" ++ f.path }
            contents := ([] : List Nat) }
    .ok { info := info, pieces := [], files := files
          piece_hashes := piece_hashes
          stats := { write_count := 0, write_failure_count := 0 }
          alerts := [] }

/-- Start a new in-progress piece (`Torrent::start_new_piece`): fetch
the 20-byte expected hash slice, the piece length and the intersecting
file range; any failure is an `InvalidPieceIndex` write error. -/
def DTorrent.start_new_piece (t : DTorrent) (info : BlockInfo) :
    Except WriteError DTorrent :=
  let hash_pos := info.piece_index * 20
  if t.piece_hashes.length < hash_pos + 20 then
    .error .InvalidPieceIndex
  else
    let expected_hash := (t.piece_hashes.drop hash_pos).take 20
    match t.info.pieceLenAt info.piece_index with
    | .error _ => .error .InvalidPieceIndex
    | .ok len =>
      match t.info.files_intersecting_piece info.piece_index with
      | .error _ => .error .InvalidPieceIndex
      | .ok files =>
        .ok { t with
              pieces := t.pieces ++
                [(info.piece_index,
                  { expected_hash := expected_hash, len := len
                    blocks := [], files := files })] }

/-- The hash-and-write closure run on the blocking worker for a
completed piece, together with the subsequent alert bookkeeping
(the tail of `Torrent::write_block` from `piece.is_complete()` on).
The piece has already been removed from the write buffer. -/
def DTorrent.completePiece (sha1 : List Nat → List Nat) (t : DTorrent)
    (piece_index : Nat) (piece : Piece) : DTorrent :=
  let is_piece_valid := piece.matches_hash sha1
  let write_result :
      Except WriteError (Bool × Option Nat × List BlockInfo ×
        List TorrentFile) :=
    if is_piece_valid then
      match piece.write (piece_index * t.info.piece_len) t.files with
      | .error e => .error e
      | .ok (write_count, files') =>
        .ok (true, some write_count,
          piece.blocks.map (fun b =>
            { piece_index := piece_index, offset := b.1
              len := b.2.length }),
          files')
    else
      .ok (false, none, [], t.files)
  match write_result with
  | .ok (valid, cnt, blocks, files') =>
    { t with
      files := files'
      stats :=
        if valid then
          { t.stats with write_count := t.stats.write_count + cnt.getD 0 }
        else t.stats
      alerts := t.alerts ++
        [.batchWrite (.ok { blocks := blocks
                            is_piece_valid := some valid })] }
  | .error e =>
    { t with
      stats := { t.stats with
                 write_failure_count := t.stats.write_failure_count + 1 }
      alerts := t.alerts ++ [.batchWrite (.error e)] }

/-- Buffer a block and, once its piece is complete, hash and write it
(`Torrent::write_block`).  Invalid input alerts the torrent and returns
normally; the disk task is never aborted from here. -/
def DTorrent.write_block (sha1 : List Nat → List Nat) (t : DTorrent)
    (info : BlockInfo) (data : List Nat) : DTorrent :=
  let piece_index := info.piece_index
  match
    if containsKey piece_index t.pieces then .ok t
    else t.start_new_piece info with
  | .error e =>
    { t with alerts := t.alerts ++ [.batchWrite (.error e)] }
  | .ok t =>
    match lookupKey piece_index t.pieces with
    | none => t
    | some piece =>
      let piece := piece.enqueue_block info.offset data
      if piece.is_complete then
        let t := { t with pieces := removeKey piece_index t.pieces }
        t.completePiece sha1 piece_index piece
      else
        { t with pieces := setKey piece_index piece t.pieces }

/-- Commands of the disk task's channel (`Command` in `disk/mod.rs`). -/
inductive DiskCommand
  | newTorrent (id : Nat) (info : StorageInfo) (piece_hashes : List Nat)
  | writeBlock (id : Nat) (info : BlockInfo) (data : List Nat)
  | shutdown
deriving DecidableEq

/-- Global state of the disk task (`Disk` in `disk/io.rs`), with the
engine alert channel and the filesystem made explicit. -/
structure DiskState where
  torrents : List (Nat × DTorrent)
  alerts : List DiskAlert
  fs : List String
deriving DecidableEq

/-- Look up the torrent of a `WriteBlock` command and delegate to it
(`Disk::write_block`); a missing torrent id is an error to the
caller. -/
def Disk.write_block (sha1 : List Nat → List Nat) (s : DiskState)
    (id : Nat) (info : BlockInfo) (data : List Nat) :
    Except Error DiskState :=
  match lookupKey id s.torrents with
  | none => .error .InvalidTorrentId
  | some t =>
    .ok { s with
          torrents := setKey id (t.write_block sha1 info data) s.torrents }

/-- The disk event loop (`Disk::start`) run over a list of received
commands.  An exhausted list models a closed channel.  Note that the
source applies `?` to `Disk::write_block`, so its error return
terminates the loop; allocation failures only alert the engine and the
loop continues. -/
def Disk.start (sha1 : List Nat → List Nat) :
    DiskState → List DiskCommand → DiskState × Except Error Unit
  | s, [] => (s, .ok ())
  | s, cmd :: rest =>
    match cmd with
    | .newTorrent id info piece_hashes =>
      if containsKey id s.torrents then
        Disk.start sha1
          { s with alerts := s.alerts ++
              [.torrentAllocation (.error .AlreadyExists)] } rest
      else
        match DTorrent.new s.fs info piece_hashes with
        | .ok t =>
          Disk.start sha1
            { s with torrents := s.torrents ++ [(id, t)]
                     alerts := s.alerts ++
                       [.torrentAllocation (.ok id)] } rest
        | .error e =>
          Disk.start sha1
            { s with alerts := s.alerts ++
                [.torrentAllocation (.error e)] } rest
    | .writeBlock id info data =>
      match Disk.write_block sha1 s id info data with
      | .ok s' => Disk.start sha1 s' rest
      | .error e => (s, .error e)
    | .shutdown => (s, .ok ())

/-- Modelled from the spec: the piece picker state of
`piece_picker.rs` (not under `src/`): a per-piece availability count
across known peers and a boolean claimed-or-completed mark per
piece. -/
structure PiecePicker where
  piece_count : Nat
  availability : List Nat
  own : List Bool
deriving DecidableEq

/-- Modelled from the spec: `PiecePicker::register_availability` records
that a peer has the pieces set in the bitfield and returns whether any
of them is not yet locally completed; it fails if the bitfield length
differs from the piece count. -/
def PiecePicker.register_availability (p : PiecePicker)
    (bitfield : List Bool) : Except Error (PiecePicker × Bool) :=
  if bitfield.length ≠ p.piece_count then
    .error .InvalidPieceIndex
  else
    let availability :=
      (p.availability.zip bitfield).map fun ab =>
        if ab.2 then ab.1 + 1 else ab.1
    let is_interested :=
      (bitfield.zip p.own).any fun bo => bo.1 && !bo.2
    .ok ({ p with availability := availability }, is_interested)

/-- Modelled from the spec: `PiecePicker::pick_piece` returns some
unclaimed piece with availability at least one and marks it claimed
(the model picks the first such index). -/
def PiecePicker.pick_piece (p : PiecePicker) :
    Option (Nat × PiecePicker) :=
  match (p.availability.zip p.own).findIdx? (fun ao =>
      decide (1 ≤ ao.1) && !ao.2) with
  | none => none
  | some i => some (i, { p with own := p.own.set i true })

/-- Modelled from the spec: `PiecePicker::received_piece` marks the
piece completed. -/
def PiecePicker.received_piece (p : PiecePicker) (index : Nat) :
    PiecePicker :=
  { p with own := p.own.set index true }

/-- Status of one block within a `PieceDownload`. -/
inductive BlockStatus
  | free
  | requested
  | received
deriving DecidableEq

/-- Modelled from the spec: `PieceDownload` of `download.rs` (not under
`src/`) tracks which blocks of a piece have been requested and which
received, in a per-block status list. -/
structure PieceDownload where
  piece_index : Nat
  piece_len : Nat
  blocks : List BlockStatus
deriving DecidableEq

/-- Modelled from the spec: `PieceDownload::new` starts with every block
free. -/
def PieceDownload.new (piece_index piece_len : Nat) : PieceDownload :=
  { piece_index := piece_index, piece_len := piece_len
    blocks := List.replicate (block_count piece_len) .free }

/-- Walk the block status list, marking up to `count` free blocks
requested and emitting their block infos in offset order. -/
def pickBlocksAux (piece_index piece_len : Nat) :
    List BlockStatus → Nat → Nat → List BlockStatus × List BlockInfo
  | [], _, _ => ([], [])
  | st :: rest, i, count =>
    if count = 0 then (st :: rest, [])
    else
      match st with
      | .free =>
        let (rest', picked) :=
          pickBlocksAux piece_index piece_len rest (i + 1) (count - 1)
        (.requested :: rest',
          { piece_index := piece_index, offset := i * BLOCK_LEN
            len := (block_len piece_len i).getD 0 } :: picked)
      | st =>
        let (rest', picked) :=
          pickBlocksAux piece_index piece_len rest (i + 1) count
        (st :: rest', picked)

/-- Modelled from the spec: `PieceDownload::pick_blocks` produces up to
`count` block infos for blocks not yet requested, marking them
requested. -/
def PieceDownload.pick_blocks (d : PieceDownload) (count : Nat) :
    PieceDownload × List BlockInfo :=
  let (blocks, picked) :=
    pickBlocksAux d.piece_index d.piece_len d.blocks 0 count
  ({ d with blocks := blocks }, picked)

/-- Modelled from the spec: `PieceDownload::received_block` marks the
block at the given offset received. -/
def PieceDownload.received_block (d : PieceDownload) (b : BlockInfo) :
    PieceDownload :=
  { d with blocks := d.blocks.set (b.offset / BLOCK_LEN) .received }

/-- Modelled from the spec: `PieceDownload::count_missing_blocks`
counts the blocks not yet received. -/
def PieceDownload.count_missing_blocks (d : PieceDownload) : Nat :=
  (d.blocks.filter fun st => decide (st ≠ .received)).length

/-- Messages of the peer wire protocol (`Message` of `peer/codec.rs`,
modelled from the spec's message table). -/
inductive Message
  | keepAlive
  | choke
  | unchoke
  | interested
  | notInterested
  | bitfield (b : List Bool)
  | haveMsg (piece_index : Nat)
  | request (b : BlockInfo)
  | cancel (b : BlockInfo)
  | block (piece_index offset : Nat) (data : List Nat)
deriving DecidableEq

/-- States of a peer session (`State` in `peer.rs`). -/
inductive SessionState
  | Disconnected
  | Connecting
  | Handshaking
  | AvailabilityExchange
  | Connected
deriving DecidableEq

/-- Session status flags and counters (`Status` in `peer.rs`). -/
structure SessionStatus where
  state : SessionState
  is_choked : Bool
  is_interested : Bool
  is_peer_choked : Bool
  is_peer_interested : Bool
  best_request_queue_len : Option Nat
  downloaded_bytes_count : Nat
  downloaded_block_bytes_count : Nat
deriving DecidableEq

/-- The default status: both sides choked, neither interested. -/
def SessionStatus.default : SessionStatus :=
  { state := .Disconnected, is_choked := true, is_interested := false
    is_peer_choked := true, is_peer_interested := false
    best_request_queue_len := none, downloaded_bytes_count := 0
    downloaded_block_bytes_count := 0 }

/-- Information about the connected peer (`PeerInfo` in `peer.rs`). -/
structure PeerInfo where
  peer_id : List Nat
  pieces : Option (List Bool)
deriving DecidableEq

/-- Shared immutable torrent status (`SharedStatus` of `torrent.rs`,
modelled from the spec's data model and its uses in `peer.rs`). -/
structure SharedStatus where
  id : Nat
  info_hash : List Nat
  client_id : List Nat
  storage : StorageInfo
deriving DecidableEq

/-- The per-peer session state (`PeerSession` in `peer.rs`), with the
shared picker inlined and the socket replaced by the lists of messages
and disk commands the handlers emit. -/
structure PeerSession where
  torrent : SharedStatus
  piece_picker : PiecePicker
  status : SessionStatus
  downloads : List PieceDownload
  outgoing_requests : List BlockInfo
  peer_info : Option PeerInfo
deriving DecidableEq

/-- The first loop of `PeerSession::make_requests`: each existing
download is asked for up to `best - outgoing_len` blocks.  The cap is
recomputed from `outgoing_requests.len()` only, which does not change
during the loop, so every download is asked for the same cap. -/
def continueDownloads (best outgoing_len : Nat) :
    List PieceDownload → List BlockInfo →
    List PieceDownload × List BlockInfo
  | [], blocks => ([], blocks)
  | d :: ds, blocks =>
    let to_request_count := best - outgoing_len
    if to_request_count = 0 then (d :: ds, blocks)
    else
      let (d', picked) := d.pick_blocks to_request_count
      let (ds', blocks') := continueDownloads best outgoing_len ds
        (blocks ++ picked)
      (d' :: ds', blocks')

/-- The second loop of `PeerSession::make_requests`: while the cap
`best - outgoing_len` is nonzero, pick a new piece, start a download
for it and ask it for up to the cap.  The source loop ends when the
picker is exhausted; each pick claims a piece, so the number of
unclaimed pieces bounds the iterations and serves as fuel. -/
def startDownloads (storage : StorageInfo) (best outgoing_len : Nat) :
    Nat → PiecePicker → List PieceDownload → List BlockInfo →
    Except Error (PiecePicker × List PieceDownload × List BlockInfo)
  | 0, picker, downloads, blocks => .ok (picker, downloads, blocks)
  | fuel + 1, picker, downloads, blocks =>
    let request_queue_len := best - outgoing_len
    if request_queue_len = 0 then .ok (picker, downloads, blocks)
    else
      match picker.pick_piece with
      | none => .ok (picker, downloads, blocks)
      | some (index, picker') =>
        match storage.pieceLenAt index with
        | .error e => .error e
        | .ok piece_len =>
          let download := PieceDownload.new index piece_len
          let (download', picked) :=
            download.pick_blocks request_queue_len
          startDownloads storage best outgoing_len fuel picker'
            (downloads ++ [download']) (blocks ++ picked)

/-- `PeerSession::make_requests`: fill the pipeline by continuing the
existing downloads, then starting new ones from the picker; the
collected block infos are appended to `outgoing_requests` and each is
sent as a `Request` message. -/
def make_requests (s : PeerSession) :
    Except Error (PeerSession × List Message) := do
  let best := s.status.best_request_queue_len.getD 0
  let (downloads, blocks) :=
    continueDownloads best s.outgoing_requests.length s.downloads []
  let (picker, downloads, blocks) ←
    startDownloads s.torrent.storage best s.outgoing_requests.length
      s.piece_picker.piece_count s.piece_picker downloads blocks
  let s' := { s with
              piece_picker := picker
              downloads := downloads
              outgoing_requests := s.outgoing_requests ++ blocks }
  .ok (s', blocks.map Message.request)

/-- `PeerSession::handle_block_msg`: find the block in the pending
request queue; an unsolicited block is silently dropped.  Otherwise the
request entry is removed, the owning download records the block (its
absence would be a broken invariant; the source unwraps, modelled as
`InvalidPieceIndex`), a completed piece is registered with the picker
and its download dropped, the block is forwarded to disk, and the
download statistics are updated. -/
def handle_block_msg (s : PeerSession) (block_info : BlockInfo)
    (data : List Nat) :
    Except Error (PeerSession × List DiskCommand) :=
  match s.outgoing_requests.findIdx? (fun b => decide (b = block_info)) with
  | none => .ok (s, [])
  | some block_pos =>
    let s := { s with
               outgoing_requests := s.outgoing_requests.eraseIdx block_pos }
    match s.downloads.findIdx? (fun d =>
        decide (d.piece_index = block_info.piece_index)) with
    | none => .error .InvalidPieceIndex
    | some download_pos =>
      match s.downloads[download_pos]? with
      | none => .error .InvalidPieceIndex
      | some download =>
        let download := download.received_block block_info
        let s := { s with downloads := s.downloads.set download_pos download }
        let s :=
          if download.count_missing_blocks = 0 then
            { s with
              piece_picker :=
                s.piece_picker.received_piece block_info.piece_index
              downloads := s.downloads.eraseIdx download_pos }
          else s
        let s := { s with
                   status := { s.status with
                               downloaded_block_bytes_count :=
                                 s.status.downloaded_block_bytes_count +
                                   block_info.len } }
        .ok (s, [.writeBlock s.torrent.id block_info data])

/-- Resize a bitfield to exactly `n` bits, trimming wire padding or
padding a short one with unset bits (`bitfield.resize(piece_count,
false)` in `handle_bitfield_msg`). -/
def resizeBitfield (b : List Bool) (n : Nat) : List Bool :=
  b.take n ++ List.replicate (n - b.length) false

/-- `PeerSession::handle_bitfield_msg`: trim the bitfield to the piece
count; a peer that is not a seed is rejected with `PeerNotSeed`;
otherwise availability is registered with the picker, the peer info
records the pieces, an `Interested` message is sent and the request
queue size is optimistically set to 4. -/
def handle_bitfield_msg (s : PeerSession) (bitfield : List Bool) :
    Except Error (PeerSession × List Message) := do
  let bitfield := resizeBitfield bitfield s.torrent.storage.piece_count
  if !bitfield.all (fun x => x) then
    .error .PeerNotSeed
  else do
    let (picker, is_interested) ←
      s.piece_picker.register_availability bitfield
    let peer_info :=
      match s.peer_info with
      | some pi => some { pi with pieces := some bitfield }
      | none => none
    let s := { s with
               piece_picker := picker
               status := { s.status with
                           is_interested := is_interested
                           best_request_queue_len := some 4 }
               peer_info := peer_info }
    .ok (s, [Message.interested])

/-- `PeerSession::handle_msg`: the message dispatch of the `Connected`
state.  Returns the new session state, the messages sent to the peer
and the commands sent to the disk task. -/
def handle_msg (s : PeerSession) (msg : Message) :
    Except Error (PeerSession × List Message × List DiskCommand) :=
  match msg with
  | .bitfield _ => .error .BitfieldNotAfterHandshake
  | .keepAlive => .ok (s, [], [])
  | .choke =>
    if !s.status.is_choked then
      .ok ({ s with outgoing_requests := []
                    status := { s.status with is_choked := true } }, [], [])
    else .ok (s, [], [])
  | .unchoke =>
    if s.status.is_choked then do
      let s := { s with status := { s.status with is_choked := false } }
      let (s, msgs) ← make_requests s
      .ok (s, msgs, [])
    else .ok (s, [], [])
  | .interested =>
    if !s.status.is_peer_interested then
      .ok ({ s with
             status := { s.status with is_peer_interested := true } },
        [], [])
    else .ok (s, [], [])
  | .notInterested =>
    if s.status.is_peer_interested then
      .ok ({ s with
             status := { s.status with is_peer_interested := false } },
        [], [])
    else .ok (s, [], [])
  | .block piece_index offset data => do
    let block_info : BlockInfo :=
      { piece_index := piece_index, offset := offset, len := data.length }
    let (s, disk_cmds) ← handle_block_msg s block_info data
    let (s, msgs) ← make_requests s
    .ok (s, msgs, disk_cmds)
  | .haveMsg _ => .ok (s, [], [])
  | .request _ => .ok (s, [], [])
  | .cancel _ => .ok (s, [], [])

/-- One message-arrival step of `PeerSession::run`: in the
`AvailabilityExchange` state the first message must be a bitfield (any
other is fatal with `PeerNotSeed`) and on success the session enters
`Connected`; in any other state `handle_msg` runs. -/
def runMessageStep (s : PeerSession) (msg : Message) :
    Except Error (PeerSession × List Message × List DiskCommand) :=
  if s.status.state = .AvailabilityExchange then
    match msg with
    | .bitfield b =>
      (handle_bitfield_msg s b).map fun r =>
        ({ r.1 with status := { r.1.status with state := .Connected } },
          r.2, [])
    | _ => .error .PeerNotSeed
  else
    handle_msg s msg

/-- The BitTorrent handshake frame (`Handshake` of `peer/codec.rs`,
modelled from the spec's wire layout). -/
structure Handshake where
  prot : List Nat
  reserved : List Nat
  info_hash : List Nat
  peer_id : List Nat
deriving DecidableEq

/-- Modelled from the spec: `Handshake::new` builds the 68-byte frame
with the literal protocol string, zeroed reserved bytes and the given
info hash and peer id (the protocol string is abstracted to its byte
placeholder list). -/
def Handshake.new (info_hash peer_id : List Nat) : Handshake :=
  { prot := List.replicate 19 0, reserved := List.replicate 8 0
    info_hash := info_hash, peer_id := peer_id }

/-- The handshake validation fragment of `PeerSession::start` (lines
109-135): the session first sends `Handshake::new(torrent.info_hash,
torrent.client_id)`; on receiving the peer's handshake it fails with
`InvalidPeerInfoHash` on an info-hash mismatch and otherwise records
`peer_info` with the `peer_id` field taken from the handshake *it
sent*. -/
def processHandshake (torrent : SharedStatus)
    (peer_handshake : Handshake) : Except Error PeerInfo :=
  let handshake := Handshake.new torrent.info_hash torrent.client_id
  if peer_handshake.info_hash ≠ torrent.info_hash then
    .error .InvalidPeerInfoHash
  else
    .ok { peer_id := handshake.peer_id, pieces := none }

/-- Deliver a list of `(offset, data)` blocks to a piece's write buffer
in the given arrival order (iterated `Piece::enqueue_block`). -/
def deliverAll (p : Piece) (l : List (Nat × List Nat)) : Piece :=
  l.foldl (fun p ob => p.enqueue_block ob.1 ob.2) p

/-- The files span the byte range `[off, stop)` contiguously: the first
file contains `off`, consecutive files abut, every intermediate file
ends before `stop` (so the next one still intersects the range), and the
last file reaches `stop`.  This is the shape
`StorageInfo::files_intersecting_piece` produces for a piece under the
no-gap no-overlap file invariant. -/
def spansPieceB (off stop : Nat) : List TorrentFile → Bool
  | [] => false
  | [f] =>
    decide (f.info.torrent_offset ≤ off) &&
    decide (off < f.info.torrent_end_offset) &&
    decide (stop ≤ f.info.torrent_end_offset)
  | f :: g :: fs =>
    decide (f.info.torrent_offset ≤ off) &&
    decide (off < f.info.torrent_end_offset) &&
    decide (g.info.torrent_offset = f.info.torrent_end_offset) &&
    decide (f.info.torrent_end_offset < stop) &&
    spansPieceB f.info.torrent_end_offset stop (g :: fs)

/-- A stand-in hash function used by the concrete witnesses below. -/
def shaW : List Nat → List Nat := fun _ => []

/-- A hash stand-in that recognises exactly the 16-byte inputs. -/
def shaLen16 : List Nat → List Nat := fun bs =>
  if bs.length = 16 then [1] else []

/-- Witness storage: the spec's archive scenario, two files of 9 and 11
bytes, two pieces of nominal length 16. -/
def storW : StorageInfo :=
  { piece_count := 2, piece_len := 16, last_piece_len := 4
    download_len := 20, download_dir := "dl"
    structure_ := .archive
      [{ path := "a", len := 9, torrent_offset := 0 },
       { path := "b", len := 11, torrent_offset := 9 }] }

/-- Witness files matching `storW`, both still empty. -/
def filesW : List TorrentFile :=
  [{ info := { path := "a", len := 9, torrent_offset := 0 }
     contents := [] },
   { info := { path := "b", len := 11, torrent_offset := 9 }
     contents := [] }]

/-- Witness storage for the request pipeline: a single 128 KiB file in
two 64 KiB pieces (four 16 KiB blocks each). -/
def storPipe : StorageInfo :=
  { piece_count := 2, piece_len := 65536, last_piece_len := 65536
    download_len := 131072, download_dir := "d"
    structure_ := .file { path := "f", len := 131072, torrent_offset := 0 } }

/-- A session status in the `Connected` state, unchoked, with the
initial request queue size of 4. -/
def statConnected : SessionStatus :=
  { state := .Connected, is_choked := false, is_interested := true
    is_peer_choked := true, is_peer_interested := false
    best_request_queue_len := some 4, downloaded_bytes_count := 0
    downloaded_block_bytes_count := 0 }

/-- The failing input of the request-queue bound: a freshly unchoked
session with an empty request queue, no downloads yet, and a picker
holding two available unclaimed pieces. -/
def sPipe : PeerSession :=
  { torrent := { id := 0, info_hash := [], client_id := []
                 storage := storPipe }
    piece_picker := { piece_count := 2, availability := [1, 1]
                      own := [false, false] }
    status := statConnected
    downloads := [], outgoing_requests := [], peer_info := none }

/-- Witness session for the availability exchange: two pieces, handshake
done, bitfield awaited. -/
def sAvail : PeerSession :=
  { torrent := { id := 0, info_hash := [1], client_id := [2]
                 storage := storW }
    piece_picker := { piece_count := 2, availability := [0, 0]
                      own := [false, false] }
    status := { SessionStatus.default with state := .AvailabilityExchange }
    downloads := [], outgoing_requests := []
    peer_info := some { peer_id := [2], pieces := none } }

/-- Witness session for the unsolicited block: one pending request. -/
def sBlockW : PeerSession :=
  { torrent := { id := 0, info_hash := [], client_id := []
                 storage := storPipe }
    piece_picker := { piece_count := 2, availability := [1, 1]
                      own := [false, false] }
    status := statConnected
    downloads := [PieceDownload.new 0 65536]
    outgoing_requests := [{ piece_index := 0, offset := 0, len := 16384 }]
    peer_info := none }

/-- Witness write-buffer piece: a 16-byte piece spanning both files of
`filesW`, awaiting its single block. -/
def pW : Piece :=
  { expected_hash := [1], len := 16, blocks := [], files := (0, 2) }

/-- Witness piece with its single block already buffered. -/
def pWFull : Piece :=
  { expected_hash := [1], len := 16
    blocks := [(0, List.replicate 16 7)], files := (0, 2) }

/-- Witness disk-side torrent holding `pW` as the in-progress piece 0. -/
def tW : DTorrent :=
  { info := storW, pieces := [(0, pW)], files := filesW
    piece_hashes := [], stats := { write_count := 0
                                   write_failure_count := 0 }
    alerts := [] }

/-- Witness disk state with no torrents and an empty filesystem. -/
def dsEmpty : DiskState :=
  { torrents := [], alerts := [], fs := [] }

/-- Witness disk state whose filesystem already holds the download
directory of `storW`. -/
def dsDirTaken : DiskState :=
  { torrents := [], alerts := [], fs := ["dl"] }

theorem get_slice_some (f : FileInfo) (o len : Nat)
    (h1 : f.torrent_offset ≤ o) (h2 : o < f.torrent_end_offset) :
    f.get_slice o len =
      some { offset := o - f.torrent_offset
             len := min len (f.torrent_end_offset - o) } := by
  unfold FileInfo.get_slice
  rw [if_neg (by omega), if_neg (by omega)]

/-- C9: for an offset inside the file, `get_slice` returns the offset
relative to the file start and the length clamped to the file end, and
it panics exactly when the offset is before the file or at/past its
end. -/
theorem get_slice_spec (f : FileInfo) (o len : Nat) :
    (f.torrent_offset ≤ o → o < f.torrent_offset + f.len →
      f.get_slice o len =
        some { offset := o - f.torrent_offset
               len := min len (f.torrent_offset + f.len - o) }) ∧
    (f.get_slice o len = none ↔
      o < f.torrent_offset ∨ f.torrent_offset + f.len ≤ o) := by
  constructor
  · intro h1 h2
    exact get_slice_some f o len h1 (by simpa [FileInfo.torrent_end_offset])
  · unfold FileInfo.get_slice FileInfo.torrent_end_offset
    split_ifs with ha hb
    · simp; omega
    · simp; omega
    · simp; omega

/-- Witness for C9 at the 500-byte file at torrent offset 200 of the
source's own unit test. -/
theorem get_slice_spec_witness :
    FileInfo.get_slice { path := "t", len := 500, torrent_offset := 200 }
        300 1000 = some { offset := 100, len := 400 } :=
  (get_slice_spec { path := "t", len := 500, torrent_offset := 200 }
    300 1000).1 (by decide) (by decide)

/-- C10: after a successful handshake exchange the recorded
`peer_info.peer_id` is the `peer_id` of the handshake the session sent,
i.e. the client's own id, regardless of the peer id the remote peer
advertised. -/
theorem handshake_records_own_client_id (t : SharedStatus)
    (ph : Handshake) (hih : ph.info_hash = t.info_hash) :
    processHandshake t ph = .ok { peer_id := t.client_id, pieces := none } := by
  simp [processHandshake, hih, Handshake.new]

/-- Witness for C10: the remote advertises peer id `[9]`, the session
records its own client id `[2]`. -/
theorem handshake_records_own_client_id_witness :
    processHandshake
        { id := 0, info_hash := [1], client_id := [2], storage := storW }
        { prot := List.replicate 19 0, reserved := List.replicate 8 0
          info_hash := [1], peer_id := [9] } =
      .ok { peer_id := [2], pieces := none } :=
  handshake_records_own_client_id
    { id := 0, info_hash := [1], client_id := [2], storage := storW }
    { prot := List.replicate 19 0, reserved := List.replicate 8 0
      info_hash := [1], peer_id := [9] } (by decide)

theorem findIdx?_none_of_not_mem {l : List BlockInfo} {bi : BlockInfo}
    (h : bi ∉ l) :
    l.findIdx? (fun b => decide (b = bi)) = none := by
  rw [List.findIdx?_eq_none_iff]
  intro x hx
  simp only [decide_eq_false_iff_not]
  intro he
  exact h (he ▸ hx)

/-- C8: an inbound block whose `BlockInfo` (piece index, offset and
payload length) matches no entry of `outgoing_requests` is discarded
silently: the handler returns `Ok`, the session state (in particular
`outgoing_requests` and `downloads`) is unchanged, and no disk command
is issued. -/
theorem handle_block_msg_unsolicited (s : PeerSession) (bi : BlockInfo)
    (data : List Nat) (h : bi ∉ s.outgoing_requests) :
    handle_block_msg s bi data = .ok (s, []) := by
  unfold handle_block_msg
  rw [findIdx?_none_of_not_mem h]

/-- Witness for C8: a block at the piece index and offset of the one
pending request but with a different payload length is dropped. -/
theorem handle_block_msg_unsolicited_witness :
    handle_block_msg sBlockW
        { piece_index := 0, offset := 0, len := 100 }
        (List.replicate 100 0) = .ok (sBlockW, []) :=
  handle_block_msg_unsolicited sBlockW
    { piece_index := 0, offset := 0, len := 100 }
    (List.replicate 100 0) (by decide)

/-- C7: a `NewTorrent` command whose download path already exists makes
the allocation fail with an `AlreadyExists` I/O error, the failure is
sent to the engine on the alert channel, and the disk task is not
terminated: it continues the event loop on the remaining commands. -/
theorem new_torrent_path_exists_alerts_and_continues
    (sha1 : List Nat → List Nat) (s : DiskState) (id : Nat)
    (info : StorageInfo) (hashes : List Nat) (rest : List DiskCommand)
    (hid : containsKey id s.torrents = false)
    (hpath : info.download_dir ∈ s.fs) :
    Disk.start sha1 s (.newTorrent id info hashes :: rest) =
      Disk.start sha1
        { s with alerts := s.alerts ++
            [.torrentAllocation (.error (.Io .alreadyExists))] } rest := by
  simp [Disk.start, hid, DTorrent.new, hpath]

/-- Witness for C7: with the download directory already on disk, the
allocation error is alerted and the following `Shutdown` command is
still received. -/
theorem new_torrent_path_exists_witness :
    Disk.start shaW dsDirTaken
        [.newTorrent 1 storW [], .shutdown] =
      Disk.start shaW
        { dsDirTaken with alerts := dsDirTaken.alerts ++
            [.torrentAllocation (.error (.Io .alreadyExists))] }
        [.shutdown] :=
  new_torrent_path_exists_alerts_and_continues shaW dsDirTaken 1 storW []
    [.shutdown] (by decide) (by decide)

/-- C2 (amended): a `WriteBlock` command whose torrent id has no entry
in the disk's torrent table makes `Disk::write_block` return
`Err(InvalidTorrentId)`, which `Disk::start` propagates with `?`,
terminating the disk task's event loop; the remaining commands are not
processed. -/
theorem write_block_unknown_id_terminates (sha1 : List Nat → List Nat)
    (s : DiskState) (id : Nat) (bi : BlockInfo) (data : List Nat)
    (rest : List DiskCommand)
    (hid : lookupKey id s.torrents = none) :
    Disk.start sha1 s (.writeBlock id bi data :: rest) =
      (s, .error .InvalidTorrentId) := by
  simp [Disk.start, Disk.write_block, hid]

/-- Witness for the amended C2. -/
theorem write_block_unknown_id_terminates_witness :
    Disk.start shaW dsEmpty
        [.writeBlock 0 { piece_index := 0, offset := 0, len := 4 } [],
         .newTorrent 1 storW []] =
      (dsEmpty, .error .InvalidTorrentId) :=
  write_block_unknown_id_terminates shaW dsEmpty 0
    { piece_index := 0, offset := 0, len := 4 } []
    [.newTorrent 1 storW []] (by decide)

/-- Counterexample to C2 as stated: on a `WriteBlock` for an unknown
torrent id the disk task does not continue; the event loop returns
`Err(InvalidTorrentId)` and the following `NewTorrent` command is never
processed (no allocation alert is emitted, no torrent is created). -/
theorem write_block_unknown_id_counterexample :
    Disk.start shaW dsEmpty
        [.writeBlock 0 { piece_index := 0, offset := 0, len := 4 } [1, 2],
         .newTorrent 2 storW []] =
      (dsEmpty, .error .InvalidTorrentId) ∧
    (Disk.start shaW dsEmpty
        [.writeBlock 0 { piece_index := 0, offset := 0, len := 4 } [1, 2],
         .newTorrent 2 storW []]).1.alerts = [] := by
  constructor
  · rfl
  · rfl

/-- C1 (evaluated at the failing input): `make_requests` on a session
with `best_request_queue_len = 4`, no outstanding requests and two
pickable pieces collects four blocks from each picked piece, because
the cap is recomputed from `outgoing_requests.len()` alone, which is
only extended after both loops; the resulting request queue holds 8
entries, double its allowed size. -/
theorem make_requests_exceeds_queue_len :
    sPipe.status.best_request_queue_len = some 4 ∧
    (make_requests sPipe).toOption.map
      (fun r => r.1.outgoing_requests.length) = some 8 := by
  constructor
  · rfl
  · decide

/-- C6: in the `AvailabilityExchange` state a `Bitfield` message is
first resized to exactly `piece_count` bits; if any bit is then unset
the session fails with `PeerNotSeed`; if all bits are set the resized
bitfield is registered with the picker, the peer info records it, an
`Interested` message is sent, `best_request_queue_len` becomes
`Some(4)` and the session transitions to `Connected`. -/
theorem availability_exchange_bitfield (s : PeerSession) (b : List Bool)
    (hstate : s.status.state = .AvailabilityExchange) :
    (¬ (resizeBitfield b s.torrent.storage.piece_count).all
        (fun x => x) = true →
      runMessageStep s (.bitfield b) = .error .PeerNotSeed) ∧
    ((resizeBitfield b s.torrent.storage.piece_count).all
        (fun x => x) = true →
      runMessageStep s (.bitfield b) =
        (s.piece_picker.register_availability
            (resizeBitfield b s.torrent.storage.piece_count)).map
          fun r =>
            ({ s with
               piece_picker := r.1
               status := { s.status with
                           is_interested := r.2
                           best_request_queue_len := some 4
                           state := .Connected }
               peer_info :=
                 match s.peer_info with
                 | some pi =>
                   some { pi with
                          pieces := some (resizeBitfield b
                            s.torrent.storage.piece_count) }
                 | none => none },
              [Message.interested], ([] : List DiskCommand))) := by
  constructor
  · intro hall
    have hf : (resizeBitfield b s.torrent.storage.piece_count).all
        (fun x => x) = false := by
      cases h : (resizeBitfield b s.torrent.storage.piece_count).all
          (fun x => x)
      · rfl
      · exact absurd h hall
    simp [runMessageStep, hstate, handle_bitfield_msg, hf, Except.map]
  · intro hall
    cases hreg : s.piece_picker.register_availability
        (resizeBitfield b s.torrent.storage.piece_count) with
    | error e =>
      simp [runMessageStep, hstate, handle_bitfield_msg, hall, hreg,
        Except.map, bind, Except.bind]
    | ok r =>
      obtain ⟨pp, int⟩ := r
      simp [runMessageStep, hstate, handle_bitfield_msg, hall, hreg,
        Except.map, bind, Except.bind]

/-- Witness for C6: two pieces, a wire bitfield with one padding bit;
the session registers both pieces, sends `Interested`, sets the queue
size to 4 and enters `Connected`. -/
theorem availability_exchange_bitfield_witness :
    runMessageStep sAvail (.bitfield [true, true, false]) =
      .ok
        ({ sAvail with
           piece_picker := { piece_count := 2, availability := [1, 1]
                             own := [false, false] }
           status := { sAvail.status with
                       is_interested := true
                       best_request_queue_len := some 4
                       state := .Connected }
           peer_info := some { peer_id := [2]
                               pieces := some [true, true] } },
          [Message.interested], ([] : List DiskCommand)) := by
  have h := (availability_exchange_bitfield sAvail [true, true, false]
    (by decide)).2 (by decide)
  rw [h]
  decide

/-- C3: when a piece completes in the write buffer and its hash does
not match the expected hash, no file is touched (the `files` field of
the resulting torrent state is the untouched input, and `Piece::write`
is never invoked), and the torrent is alerted with a `BatchWrite` whose
verdict is `Some(false)` and whose block list is empty. -/
theorem write_block_invalid_hash (sha1 : List Nat → List Nat)
    (t : DTorrent) (info : BlockInfo) (data : List Nat) (p : Piece)
    (hp : lookupKey info.piece_index t.pieces = some p)
    (hc : (p.enqueue_block info.offset data).is_complete = true)
    (hbad : (p.enqueue_block info.offset data).matches_hash sha1 = false) :
    t.write_block sha1 info data =
      { t with
        pieces := removeKey info.piece_index t.pieces
        alerts := t.alerts ++
          [.batchWrite (.ok { blocks := []
                              is_piece_valid := some false })] } := by
  have hck : containsKey info.piece_index t.pieces = true := by
    simp [containsKey, hp]
  simp [DTorrent.write_block, hck, hp, hc, DTorrent.completePiece, hbad]

/-- Witness for C3: the single 16-byte block completes piece 0, the
stand-in hash mismatches, the files stay empty, the invalid-piece alert
is emitted. -/
theorem write_block_invalid_hash_witness :
    tW.write_block shaW { piece_index := 0, offset := 0, len := 16 }
        (List.replicate 16 7) =
      { tW with
        pieces := removeKey 0 tW.pieces
        alerts := tW.alerts ++
          [.batchWrite (.ok { blocks := []
                              is_piece_valid := some false })] } :=
  write_block_invalid_hash shaW tW
    { piece_index := 0, offset := 0, len := 16 }
    (List.replicate 16 7) pW (by decide) (by decide) (by decide)

theorem lookupKey_btInsert_ne {α : Type} (k k' : Nat) (v : α)
    (m : List (Nat × α)) (h : k ≠ k') :
    lookupKey k (btInsert k' v m) = lookupKey k m := by
  induction m with
  | nil => simp [btInsert, lookupKey, h]
  | cons a rest ih =>
    obtain ⟨ka, va⟩ := a
    by_cases h1 : k' < ka
    · simp [btInsert, h1, lookupKey, h]
    · by_cases h2 : k' = ka
      · subst h2
        simp [btInsert, h1, lookupKey, h]
      · simp [btInsert, h1, h2, lookupKey, ih]

theorem containsKey_btInsert_ne {α : Type} (k k' : Nat) (v : α)
    (m : List (Nat × α)) (h : k ≠ k') :
    containsKey k (btInsert k' v m) = containsKey k m := by
  simp [containsKey, lookupKey_btInsert_ne k k' v m h]

theorem btInsert_comm {α : Type} (a b : Nat) (x y : α) (h : a ≠ b)
    (m : List (Nat × α)) :
    btInsert a x (btInsert b y m) = btInsert b y (btInsert a x m) := by
  induction m with
  | nil =>
    simp only [btInsert]
    split_ifs <;> (try simp only [btInsert]) <;>
      first
        | rfl
        | (exfalso; omega)
  | cons c rest ih =>
    obtain ⟨kc, vc⟩ := c
    simp only [btInsert]
    split_ifs <;> (try simp only [btInsert]) <;> (try split_ifs) <;>
      first
        | rfl
        | (exact congrArg _ ih)
        | (exfalso; omega)

theorem enqueue_block_comm (p : Piece) (o1 o2 : Nat) (d1 d2 : List Nat)
    (h : o1 ≠ o2) :
    (p.enqueue_block o1 d1).enqueue_block o2 d2 =
      (p.enqueue_block o2 d2).enqueue_block o1 d1 := by
  simp only [Piece.enqueue_block]
  by_cases h1 : containsKey o1 p.blocks <;>
    by_cases h2 : containsKey o2 p.blocks <;>
      simp [h1, h2, containsKey_btInsert_ne o2 o1 d1 p.blocks (Ne.symm h),
        containsKey_btInsert_ne o1 o2 d2 p.blocks h,
        btInsert_comm o2 o1 d2 d1 (Ne.symm h)]

/-- C5: delivering the blocks of a piece (distinct offsets) in any
permutation of their order produces the same write-buffer state,
because `enqueue_block` inserts into an offset-ordered map; hence the
hash verdict and the bytes written to disk are the same as for the
in-order delivery. -/
theorem blocks_order_irrelevant (p : Piece)
    (l1 l2 : List (Nat × List Nat)) (hperm : l1.Perm l2)
    (hnodup : (l1.map Prod.fst).Nodup) :
    deliverAll p l1 = deliverAll p l2 ∧
    (∀ sha1 : List Nat → List Nat,
      (deliverAll p l1).matches_hash sha1 =
        (deliverAll p l2).matches_hash sha1) ∧
    (∀ (off : Nat) (files : List TorrentFile),
      (deliverAll p l1).write off files =
        (deliverAll p l2).write off files) := by
  have heq : deliverAll p l1 = deliverAll p l2 := by
    unfold deliverAll
    refine hperm.foldl_eq' ?_ p
    intro x hx y hy z
    by_cases hxy : x = y
    · subst hxy; rfl
    · have hk : x.1 ≠ y.1 := fun he =>
        hxy (List.inj_on_of_nodup_map hnodup hx hy he)
      exact enqueue_block_comm z x.1 y.1 x.2 y.2 hk
  exact ⟨heq, fun sha1 => by rw [heq], fun off files => by rw [heq]⟩

/-- Witness for C5: two 16 KiB-aligned blocks delivered in reversed
order give the same buffer as the in-order delivery. -/
theorem blocks_order_irrelevant_witness :
    deliverAll pW [(0, [1]), (16384, [2])] =
      deliverAll pW [(16384, [2]), (0, [1])] :=
  (blocks_order_irrelevant pW [(0, [1]), (16384, [2])]
    [(16384, [2]), (0, [1])] (List.Perm.swap _ _ _) (by decide)).1

theorem bytesLen_nil : bytesLen [] = 0 := rfl

theorem bytesLen_cons (b : List Nat) (bs : List (List Nat)) :
    bytesLen (b :: bs) = b.length + bytesLen bs := by
  simp [bytesLen]

theorem splitBufsAt_all (n : Nat) (bufs : List (List Nat))
    (h : bytesLen bufs ≤ n) : splitBufsAt n bufs = (bufs, []) := by
  induction bufs generalizing n with
  | nil => simp [splitBufsAt]
  | cons b bs ih =>
    rw [bytesLen_cons] at h
    unfold splitBufsAt
    rw [if_pos (by omega), ih (n - b.length) (by omega)]

theorem splitBufsAt_fst_bytes (n : Nat) (bufs : List (List Nat))
    (h : n ≤ bytesLen bufs) : bytesLen (splitBufsAt n bufs).1 = n := by
  induction bufs generalizing n with
  | nil =>
    simp [bytesLen] at h
    simp [splitBufsAt, bytesLen, h]
  | cons b bs ih =>
    rw [bytesLen_cons] at h
    by_cases hb : b.length ≤ n
    · have hrec := ih (n - b.length) (by omega)
      simp [splitBufsAt, hb, bytesLen_cons]
      rcases hsp : splitBufsAt (n - b.length) bs with ⟨hd, tl⟩
      rw [hsp] at hrec
      simp at hrec
      simp [bytesLen_cons, hrec]
      omega
    · by_cases hn : n = 0
      · subst hn
        simp [splitBufsAt, hb, bytesLen]
      · simp [splitBufsAt, hb, hn, bytesLen]
        omega

theorem splitBufsAt_snd_bytes (n : Nat) (bufs : List (List Nat))
    (h : n ≤ bytesLen bufs) :
    bytesLen (splitBufsAt n bufs).2 = bytesLen bufs - n := by
  induction bufs generalizing n with
  | nil =>
    simp [bytesLen] at h
    simp [splitBufsAt, bytesLen, h]
  | cons b bs ih =>
    rw [bytesLen_cons] at h
    by_cases hb : b.length ≤ n
    · have hrec := ih (n - b.length) (by omega)
      rcases hsp : splitBufsAt (n - b.length) bs with ⟨hd, tl⟩
      rw [hsp] at hrec
      simp at hrec
      simp [splitBufsAt, hb, hsp, bytesLen_cons, hrec]
      omega
    · by_cases hn : n = 0
      · subst hn
        simp [splitBufsAt, hb, bytesLen]
      · simp [splitBufsAt, hb, hn, bytesLen_cons, bytesLen]
        omega

theorem dropBytesBufs_all (bufs : List (List Nat)) :
    dropBytesBufs (bytesLen bufs) bufs = [] := by
  induction bufs with
  | nil => rfl
  | cons b bs ih =>
    rw [bytesLen_cons]
    unfold dropBytesBufs
    rw [if_pos (by omega)]
    have harith : b.length + bytesLen bs - b.length = bytesLen bs := by omega
    rw [harith]
    exact ih

theorem write_vectored_at_fst (f : TorrentFile) (iov : IoVecs)
    (off : Nat) :
    (f.write_vectored_at iov off).1 = bytesLen iov.head := by
  unfold TorrentFile.write_vectored_at
  by_cases h : iov.head.isEmpty
  · rw [if_pos h, List.isEmpty_iff.mp h]
    rfl
  · rw [if_neg h]

theorem write_vectored_at_iov (f : TorrentFile) (iov : IoVecs)
    (off : Nat) :
    (f.write_vectored_at iov off).2.2 = { head := [], tail := iov.tail } := by
  unfold TorrentFile.write_vectored_at
  by_cases h : iov.head.isEmpty
  · rw [if_pos h]
    cases iov with
    | mk hd tl =>
      simp at h
      simp [h]
  · rw [if_neg h]
    simp [IoVecs.advance, dropBytesBufs_all]



theorem pieceWriteLoop_covers (piece_len stop : Nat) :
    ∀ (fs : List TorrentFile) (off : Nat) (bufs : List (List Nat))
      (total : Nat),
      spansPieceB off stop fs = true →
      bytesLen bufs = stop - off →
      off < stop →
      stop ≤ off + piece_len →
      ∃ fs', pieceWriteLoop piece_len fs off bufs total =
        .ok (total + (stop - off), fs', []) := by
  intro fs
  induction fs with
  | nil =>
    intro off bufs total hspan _ _ _
    simp [spansPieceB] at hspan
  | cons f rest ih =>
    intro off bufs total hspan hbytes hlt hple
    cases rest with
    | nil =>
      simp only [spansPieceB, Bool.and_eq_true, decide_eq_true_eq] at hspan
      obtain ⟨⟨h1, h2⟩, h3⟩ := hspan
      have hslice := get_slice_some f.info off piece_len h1 h2
      have hle : bytesLen bufs ≤
          min piece_len (f.info.torrent_end_offset - off) := by
        rw [hbytes]; omega
      have hbnd : IoVecs.bounded bufs
          (min piece_len (f.info.torrent_end_offset - off)) =
          ⟨bufs, []⟩ := by
        simp [IoVecs.bounded, splitBufsAt_all _ _ hle]
      have hfst := write_vectored_at_fst f ⟨bufs, []⟩
        (off - f.info.torrent_offset)
      have hiov := write_vectored_at_iov f ⟨bufs, []⟩
        (off - f.info.torrent_offset)
      rcases hw : f.write_vectored_at ⟨bufs, []⟩
          (off - f.info.torrent_offset) with ⟨cnt, f', iov'⟩
      rw [hw] at hfst hiov
      simp only at hfst hiov
      simp only [pieceWriteLoop, hslice, hbnd, hw, hiov, IoVecs.into_tail]
      refine ⟨[f'], ?_⟩
      have : cnt = stop - off := by rw [hfst, hbytes]
      rw [this]
    | cons g rest' =>
      simp only [spansPieceB, Bool.and_eq_true, decide_eq_true_eq] at hspan
      obtain ⟨⟨⟨⟨h1, h2⟩, h3⟩, h4⟩, h5⟩ := hspan
      have hslice := get_slice_some f.info off piece_len h1 h2
      have hminle : min piece_len (f.info.torrent_end_offset - off) =
          f.info.torrent_end_offset - off := by omega
      have hnle : f.info.torrent_end_offset - off ≤ bytesLen bufs := by
        rw [hbytes]; omega
      have hsfst := splitBufsAt_fst_bytes
        (f.info.torrent_end_offset - off) bufs hnle
      have hssnd := splitBufsAt_snd_bytes
        (f.info.torrent_end_offset - off) bufs hnle
      rcases hsp : splitBufsAt (f.info.torrent_end_offset - off) bufs
        with ⟨hd, tl⟩
      rw [hsp] at hsfst hssnd
      simp only at hsfst hssnd
      have hbnd : IoVecs.bounded bufs
          (min piece_len (f.info.torrent_end_offset - off)) =
          ⟨hd, tl⟩ := by
        simp [IoVecs.bounded, hminle, hsp]
      have hfst := write_vectored_at_fst f ⟨hd, tl⟩
        (off - f.info.torrent_offset)
      have hiov := write_vectored_at_iov f ⟨hd, tl⟩
        (off - f.info.torrent_offset)
      rcases hw : f.write_vectored_at ⟨hd, tl⟩
          (off - f.info.torrent_offset) with ⟨cnt, f', iov'⟩
      rw [hw] at hfst hiov
      simp only at hfst hiov
      have hcnt : cnt = f.info.torrent_end_offset - off := by
        rw [hfst, hsfst]
      have hoff : off + cnt = f.info.torrent_end_offset := by
        rw [hcnt]; omega
      obtain ⟨fs'', hrec⟩ := ih f.info.torrent_end_offset tl (total + cnt)
        h5 (by rw [hssnd, hbytes]; omega) h4 (by omega)
      generalize hgl : g :: rest' = gl
      rw [hgl] at hrec
      simp only [pieceWriteLoop, hslice, hbnd, hw, hiov, IoVecs.into_tail,
        hoff, hrec]
      refine ⟨f' :: fs'', ?_⟩
      have : total + cnt + (stop - f.info.torrent_end_offset) =
          total + (stop - off) := by
        rw [hcnt]; omega
      rw [this]



/-- C4: for a complete piece whose buffered blocks hold exactly
`piece_len` bytes and whose file range spans the piece's byte range
contiguously (the shape `files_intersecting_piece` produces under the
no-gap no-overlap invariant), `Piece::write` returns `Ok` with a total
write count equal to the piece length (the sum of the block lengths),
and the leftover buffer tail after traversing the files is empty: every
block buffer has been fully consumed. -/
theorem piece_write_full (p : Piece) (off : Nat)
    (files : List TorrentFile)
    (hsum : bytesLen (p.blocks.map (fun b => b.2)) = p.len)
    (hpos : 0 < p.len)
    (hspan : spansPieceB off (off + p.len) (sliceFiles files p.files)
      = true) :
    (p.writeAux off files).toOption.map (fun r => (r.1, r.2.2)) =
      some (p.len, ([] : List (List Nat))) ∧
    (p.write off files).toOption.map (fun r => r.1) = some p.len := by
  have hcore : ∃ fs', p.writeCore off (sliceFiles files p.files) =
      .ok (p.len, fs', []) := by
    rcases hfs : sliceFiles files p.files with _ | ⟨f, _ | ⟨g, rest⟩⟩
    · rw [hfs] at hspan
      simp [spansPieceB] at hspan
    · rw [hfs] at hspan
      simp only [spansPieceB, Bool.and_eq_true, decide_eq_true_eq] at hspan
      obtain ⟨⟨h1, h2⟩, h3⟩ := hspan
      have hslice := get_slice_some f.info off p.len h1 h2
      have hfst := write_vectored_at_fst f
        (IoVecs.unbounded (p.blocks.map (fun b => b.2)))
        (off - f.info.torrent_offset)
      have hiov := write_vectored_at_iov f
        (IoVecs.unbounded (p.blocks.map (fun b => b.2)))
        (off - f.info.torrent_offset)
      rcases hw : f.write_vectored_at
          (IoVecs.unbounded (p.blocks.map (fun b => b.2)))
          (off - f.info.torrent_offset) with ⟨cnt, f', iov'⟩
      rw [hw] at hfst hiov
      simp only [IoVecs.unbounded] at hfst hiov
      refine ⟨[f'], ?_⟩
      simp only [Piece.writeCore, hslice, hw, hiov, IoVecs.into_tail]
      rw [hfst, hsum]
    · rw [hfs] at hspan
      obtain ⟨fs', hrec⟩ := pieceWriteLoop_covers p.len (off + p.len)
        (f :: g :: rest) off (p.blocks.map (fun b => b.2)) 0 hspan
        (by rw [hsum]; omega) (by omega) (by omega)
      refine ⟨fs', ?_⟩
      have harith : (0 : Nat) + (off + p.len - off) = p.len := by omega
      rw [harith] at hrec
      simp only [Piece.writeCore]
      exact hrec
  obtain ⟨fs', hcore⟩ := hcore
  constructor
  · simp [Piece.writeAux, hcore]
    exact ⟨_, rfl⟩
  · simp [Piece.write, Piece.writeAux, hcore]
    exact ⟨_, rfl⟩

/-- Witness for C4: the 16-byte piece spanning the 9-byte and 11-byte
files is written in full and its buffers are consumed. -/
theorem piece_write_full_witness :
    (pWFull.writeAux 0 filesW).toOption.map (fun r => (r.1, r.2.2)) =
      some (16, ([] : List (List Nat))) ∧
    (pWFull.write 0 filesW).toOption.map (fun r => r.1) = some 16 :=
  piece_write_full pWFull 0 filesW (by decide) (by decide) (by decide)

end Cratetorrent
